import Mathlib

/-!
Verification of the museum-guide relay server's dataset store and
lookup/enrichment engine.

The definitions below are a shallow embedding of the TypeScript sources
`json-data-service.ts` and `session.ts`.  JavaScript strings are modelled as
Lean `String` (a list of characters); the JavaScript string operations used by
the code (`toLowerCase`, `trim`, `includes`, `split(/\s+/)`, `join(" ")`,
`replace(/[^\w\s]/g, '')`, `replace(/\s+/g, ' ')`) are modelled character by
character on `String.data`.  The store's `data` field (a parsed JSON document
or `null`) is an `Option SculptureData`; asynchronous I/O is dropped and every
service method is the pure function of the store contents that the source
computes.  JavaScript truthiness of an optional string field (absent or the
empty string is falsy) is modelled by `truthy`.
-/

set_option maxRecDepth 20000

/-- Whitespace test used to model the JavaScript `trim` and the regex `\s`. -/
def wsChar (c : Char) : Bool := c.isWhitespace

/-- Word characters of the JavaScript regex `\w`, that is `[A-Za-z0-9_]`. -/
def wordChar (c : Char) : Bool := c.isAlphanum || c == '_'

/-- Characters kept by `replace(/[^\w\s]/g, '')`: word characters and whitespace. -/
def keepChar (c : Char) : Bool := wordChar c || wsChar c

/-- Model of JavaScript `String.prototype.toLowerCase` (ASCII letters). -/
def jsToLowerCase (s : String) : String := ⟨s.data.map Char.toLower⟩

/-- Character-list form of `trim`: drop whitespace at both ends. -/
def jsTrimList (l : List Char) : List Char :=
  List.rdropWhile wsChar (l.dropWhile wsChar)

/-- Model of JavaScript `String.prototype.trim`. -/
def jsTrim (s : String) : String := ⟨jsTrimList s.data⟩

/-- Does `hay` start with `needle`? Helper for the substring test. -/
def headMatch : List Char → List Char → Bool
  | [], _ => true
  | _ :: _, [] => false
  | a :: as, b :: bs => a == b && headMatch as bs

/-- Does `needle` occur contiguously inside `hay`? -/
def occursIn (needle : List Char) : List Char → Bool
  | [] => headMatch needle []
  | c :: t => headMatch needle (c :: t) || occursIn needle t

/-- Model of JavaScript `hay.includes(needle)`. -/
def jsIncludes (hay needle : String) : Bool := occursIn needle.data hay.data

/-- Model of `replace(/\s+/g, ' ')`: each maximal whitespace run becomes one
space (the run is consumed character by character, emitting the space at the
run's final character). -/
def collapseWs : List Char → List Char
  | [] => []
  | [c] => if wsChar c then [' '] else [c]
  | c :: d :: cs =>
    if wsChar c then
      if wsChar d then collapseWs (d :: cs)
      else ' ' :: collapseWs (d :: cs)
    else c :: collapseWs (d :: cs)

/-- Model of `JsonDataService.normalizeName`: lower-case, strip the characters
matched by `[^\w\s]`, collapse whitespace runs to single spaces, trim. -/
def normalizeName (name : String) : String :=
  jsTrim ⟨collapseWs ((jsToLowerCase name).data.filter keepChar)⟩

/-- Model of JavaScript `split(/\s+/)` on a character list: the segments between
maximal whitespace runs, including an empty segment at an end that touches a
whitespace run (`" a ".split(/\s+/)` is `["", "a", ""]`). -/
def splitWsAux : List Char → List Char → List (List Char)
  | [], acc => [acc.reverse]
  | [c], acc => if wsChar c then [acc.reverse, []] else [(c :: acc).reverse]
  | c :: d :: cs, acc =>
    if wsChar c then
      if wsChar d then splitWsAux (d :: cs) acc
      else acc.reverse :: splitWsAux (d :: cs) []
    else splitWsAux (d :: cs) (c :: acc)

/-- Model of JavaScript `s.split(/\s+/)`. -/
def splitWsL (l : List Char) : List (List Char) := splitWsAux l []

/-- Model of JavaScript `words.join(" ")`. -/
def jsJoinSp : List (List Char) → List Char
  | [] => []
  | [t] => t
  | t :: ts => t ++ ' ' :: jsJoinSp ts

/-- One sculpture record (interface `Sculpture` of `json-data-service.ts`);
`name` is required, every other field is optional. -/
structure Sculpture where
  name : String
  year : Option String := none
  location : Option String := none
  artist : Option String := none
  cast_information : Option String := none
  original_material : Option String := none
  dimensions : Option String := none
  description : Option String := none
  style : Option String := none
  artifacts : Option (List String) := none
  original_information : Option String := none
deriving DecidableEq, Repr

/-- One informational block (interface `GeneralInfo`). -/
structure GeneralInfo where
  title : String
  description : String
deriving DecidableEq, Repr

/-- The `general_information` object with its two fixed keys. -/
structure GeneralInformation where
  gallery_collection : GeneralInfo
  gothic_style : GeneralInfo
deriving DecidableEq, Repr

/-- The parsed dataset document (interface `SculptureData`). -/
structure SculptureData where
  general_information : GeneralInformation
  sculptures : List Sculpture
deriving DecidableEq, Repr

/-- The `sculptures` getter: `this.data?.sculptures || []`. -/
def sculpturesOf (data : Option SculptureData) : List Sculpture :=
  match data with
  | some d => d.sculptures
  | none => []

/-- Model of `loadData`: the argument is the outcome of reading and parsing the
dataset file (`none` when the file is absent or fails to parse). It returns
the store's resulting `data` field and the method's boolean result; on failure
the error is logged and the store keeps `data = null`. -/
def loadData (fileContent : Option SculptureData) : Option SculptureData × Bool :=
  match fileContent with
  | some d => (some d, true)
  | none => (none, false)

/-- Descending-name-length comparison used by the partial-match sort
`(a, b) => b.name.length - a.name.length`. -/
def byDescNameLen (a b : Sculpture) : Prop := b.name.length ≤ a.name.length

instance : DecidableRel byDescNameLen :=
  fun a b => inferInstanceAs (Decidable (b.name.length ≤ a.name.length))

instance : IsTotal Sculpture byDescNameLen :=
  ⟨fun a b => Nat.le_total b.name.length a.name.length⟩

instance : IsTrans Sculpture byDescNameLen :=
  ⟨fun _ _ _ h1 h2 => Nat.le_trans h2 h1⟩

/-- Model of `JsonDataService.findSculptureByName`: exact lower-case match
first, then normalized-name match, then substring matches sorted by descending
name length (a stable sort, as JavaScript `Array.prototype.sort` is stable). -/
def findSculptureByName (data : Option SculptureData) (name : String) : List Sculpture :=
  match data with
  | none => []
  | some d =>
    let searchName := jsTrim (jsToLowerCase name)
    let exactMatches := d.sculptures.filter (fun s => jsToLowerCase s.name == searchName)
    if exactMatches.length > 0 then exactMatches
    else
      let normalizedSearch := normalizeName searchName
      let normalizedMatches :=
        d.sculptures.filter (fun s => normalizeName s.name == normalizedSearch)
      if normalizedMatches.length > 0 then normalizedMatches
      else
        List.insertionSort byDescNameLen
          (d.sculptures.filter (fun s => jsIncludes (jsToLowerCase s.name) searchName))

/-- Model of `JsonDataService.getSculptureByName`: first of `findSculptureByName`. -/
def getSculptureByName (data : Option SculptureData) (name : String) : Option Sculpture :=
  (findSculptureByName data name).head?

/-- The four optional query criteria of `searchSculptures`. -/
structure SearchParams where
  name : Option String := none
  artist : Option String := none
  location : Option String := none
  year : Option String := none
deriving DecidableEq, Repr

/-- JavaScript truthiness of an optional string: `undefined` and `""` are falsy. -/
def truthy : Option String → Bool
  | none => false
  | some s => !(s == "")

/-- The `params.name` check inside the `searchSculptures` filter: when the
criterion is truthy, the record's lower-cased name must contain the
lower-cased trimmed criterion. -/
def critNamePasses (crit : Option String) (nm : String) : Bool :=
  match crit with
  | none => true
  | some c =>
    if c == "" then true
    else jsIncludes (jsToLowerCase nm) (jsTrim (jsToLowerCase c))

/-- An optional-field check inside the `searchSculptures` filter
(`params.artist && sculpture.artist` etc.): it only filters when both the
criterion and the record's field are truthy. -/
def critFieldPasses (crit : Option String) (field : Option String) : Bool :=
  match crit, field with
  | some c, some f =>
    if c == "" || f == "" then true
    else jsIncludes (jsToLowerCase f) (jsTrim (jsToLowerCase c))
  | _, _ => true

/-- Model of `JsonDataService.searchSculptures`. -/
def searchSculptures (data : Option SculptureData) (params : SearchParams) : List Sculpture :=
  match data with
  | none => []
  | some d =>
    if !truthy params.name && !truthy params.artist
        && !truthy params.location && !truthy params.year then []
    else
      d.sculptures.filter (fun s =>
        critNamePasses params.name s.name
          && critFieldPasses params.artist s.artist
          && critFieldPasses params.location s.location
          && critFieldPasses params.year s.year)

/-- Model of `JsonDataService.getGalleryInfo`. -/
def getGalleryInfo (data : Option SculptureData) : Option GeneralInfo :=
  data.map (fun d => d.general_information.gallery_collection)

/-- Model of `JsonDataService.getGothicStyleInfo`. -/
def getGothicStyleInfo (data : Option SculptureData) : Option GeneralInfo :=
  data.map (fun d => d.general_information.gothic_style)

/-- One line of the fact sheet for an optional field: `if (sculpture.year)
info.push(...)` — a falsy (absent or empty) field contributes nothing. -/
def optionalLine (label : String) (value : Option String) : List String :=
  match value with
  | some v => if v == "" then [] else [label ++ v]
  | none => []

/-- Fact sheet of one record, lines joined by newlines (`RTSession.formatSculptureInfo`
body for a single sculpture). -/
def formatOneSculpture (s : Sculpture) : String :=
  String.intercalate "\n"
    (["Name: " ++ s.name]
      ++ optionalLine "Year: " s.year
      ++ optionalLine "Location: " s.location
      ++ optionalLine "Artist: " s.artist
      ++ optionalLine "Description: " s.description
      ++ optionalLine "Cast Information: " s.cast_information
      ++ optionalLine "Original Material: " s.original_material
      ++ optionalLine "Dimensions: " s.dimensions)

/-- Model of `RTSession.formatSculptureInfo`: records joined by blank lines. -/
def formatSculptureInfo (sculptures : List Sculpture) : String :=
  String.intercalate "\n\n" (sculptures.map formatOneSculpture)

/-- Record names whose lower-case form occurs in the lower-cased user message
(the `potentialNames` filter of `enrichWithSculptureData`). -/
def potentialNamesFor (data : Option SculptureData) (userMessage : String) : List String :=
  ((sculpturesOf data).map (fun s => s.name)).filter
    (fun nm => jsIncludes (jsToLowerCase userMessage) (jsToLowerCase nm))

/-- Descending-length comparison on strings, the comparator
`(a, b) => b.length - a.length` used to pick the best matching name. -/
def byDescLen (a b : String) : Prop := b.length ≤ a.length

instance : DecidableRel byDescLen :=
  fun a b => inferInstanceAs (Decidable (b.length ≤ a.length))

instance : IsTotal String byDescLen :=
  ⟨fun a b => Nat.le_total b.length a.length⟩

instance : IsTrans String byDescLen :=
  ⟨fun _ _ _ h1 h2 => Nat.le_trans h2 h1⟩

/-- The fallback search string: the lower-cased message split on `/\s+/` and
rejoined with single spaces (`words.join(" ")`). -/
def fallbackJoined (userMessage : String) : String :=
  ⟨jsJoinSp (splitWsL (jsToLowerCase userMessage).data)⟩

/-- The broader fallback search of `enrichWithSculptureData`: the joined string
is supplied simultaneously as all four criteria. -/
def fallbackResults (data : Option SculptureData) (userMessage : String) : List Sculpture :=
  searchSculptures data
    { name := some (fallbackJoined userMessage)
      artist := some (fallbackJoined userMessage)
      location := some (fallbackJoined userMessage)
      year := some (fallbackJoined userMessage) }

/-- Text of the system message sent when a named record was found. -/
def foundMessage (sculpture : Sculpture) : String :=
  "I found information about \"" ++ sculpture.name
    ++ "\" in our collection. Here are the details:\n"
    ++ formatSculptureInfo [sculpture]
    ++ "\n\nPlease provide this information to the user in a friendly, engaging way, focusing on the most relevant aspects to their question."

/-- Text of the system message sent when the fallback search found records. -/
def fallbackMessage (results : List Sculpture) : String :=
  "I found some relevant sculptures in our collection that might interest the user:\n"
    ++ formatSculptureInfo results
    ++ "\n\nPlease use this information to provide a helpful, engaging response focused on the most relevant aspects to their question."

/-- Model of `RTSession.enrichWithSculptureData`. Its observable effect is the
text of the system message it sends upstream, if any; `none` models "no
enrichment injected". Control flow follows the source: if some record name
occurs in the message, the longest one (first under the stable
descending-length sort) is looked up via `getSculptureByName`; only when that
path does not send a message is the broader fallback search issued. -/
def enrichWithSculptureData (data : Option SculptureData) (userMessage : String) : Option String :=
  let potentialNames := potentialNamesFor data userMessage
  if potentialNames.length > 0 then
    let bestMatch := (List.insertionSort byDescLen potentialNames).headD ""
    match getSculptureByName data bestMatch with
    | some sculpture => some (foundMessage sculpture)
    | none =>
      if (fallbackResults data userMessage).length > 0 then
        some (fallbackMessage (fallbackResults data userMessage))
      else none
  else
    if (fallbackResults data userMessage).length > 0 then
      some (fallbackMessage (fallbackResults data userMessage))
    else none

/-- Server-to-client messages relevant to input-audio handling
(the `WSMessage` union of `session.ts`). -/
inductive WSMessage where
  | textDelta (id : String) (delta : String)
  | transcriptionMsg (id : String) (text : String)
  | speechStarted
  | textDone (id : String)
  | connected (greeting : String)
deriving DecidableEq, Repr

/-- An upstream input-audio item after its completion signal: its id and the
final transcription (`undefined` when none was produced). -/
structure RTInputAudioItemModel where
  id : String
  transcription : Option String
deriving DecidableEq, Repr

/-- Model of `RTSession.handleInputAudio`: the ordered sequence of messages it
emits to the client socket. It sends `speech_started` immediately, then waits
for the upstream completion signal (modelled by the event carrying its final
transcription), then sends one `transcription` message with
`event.transcription || ""`. -/
def handleInputAudio (event : RTInputAudioItemModel) : List WSMessage :=
  [WSMessage.speechStarted,
    WSMessage.transcriptionMsg event.id (event.transcription.getD "")]
/-- The four sculpture records of data/sculptures.json. -/
def tynRec : Sculpture where
  name := "Tympanum of the northern portal of the Church of Our Lady before Týn"
  year := some "around 1380"
  location := some "Prague"
  artist := some "unknown"
  cast_information := some "patinated plaster, detail of the right side upper segment Devil Fight with an Angel for the Soul of an Evil Thief"
  original_material := some "marlstone, high relief"
  dimensions := some "whole height 232 cm, width 302.5 cm"
  description := some "The tympanum from the Church of Our Lady before Týn in Prague is an important monument from the reign of Wenceslas IV. It consists of five relief panels with passion scenes. The exhibited fragment of the Devil\u0027s Struggle for the Soul of the Evil Thief is only a small part of it. The devils are taking possession of the soul of a hardened thief. Three monsters with wild animal heads and a repulsive grin surround a figure struggling in mortal struggle. The devil on the right is holding the unfortunate man\u0027s left hand and leg tightly, while the other has grasped his right hand and his backward twisted head. The third one holds firmly the sole of the thief\u0027s right foot. The wrestling scene is the dramatic culmination of the tympanum decoration. Thoughtful movement dominates the entire composition. Originally, this relief was also polychromed."

def charlesRec : Sculpture where
  name := "Charles the fourth"
  year := some "between 1375 - 1378"
  location := some "St. Vitus Ironworks"
  artist := some "unknown"
  cast_information := some "epoxy resin, patinated"
  original_material := some "sandstone"
  dimensions := some "58 x 59 cm"
  description := some "Charles IV was in 14th century. We can see its appearance in mural, panel and book paintings, in mosaics, in goldsmithing, on seals and coins. Portrait of Charles IV from the triforium of the Church of St. Vitus Like the other portrait busts, the bust was made life-size, polychrome and supplemented with a coat of arms. The portraits of the members of the royal family are arranged in a strictly hierarchical order. In the most honorable place in the middle is a bust of Charles IV. The king has large, widely spaced eyes. The upper eyelid is emphasized by two thick lines, the lower one is almost straight. A slightly open mouth under a strong short nose is bordered by a plastically emphasized moustache and beard. The hair is covered on the sides by long wide ribbons ending in fringes. They overlap the raised edge of the collar. They are the remnants of a mitre – a liturgical headgear."

def annaRec : Sculpture where
  name := "Anna of Schweidnitz"
  year := some "between 1375 - 1378"
  location := some "St. Vitus Ironworks"
  artist := some "unknown"
  cast_information := some "patinated plaster"
  original_material := some "sandstone"
  dimensions := some "55 x 53 cm"
  description := some "On 27 May 1353, Princess Anne, the fourteen-year-old daughter of Duke Henry of Schweidnitz, became the third wife of the then thirty-seven-year-old Charles IV. Two months later she was crowned Queen of Bohemia in Prague and Queen of the Romans on 9 February 1354 in Aachen. The portrait of Anna of Schweidnitz is one of the most charming busts of the triforium. The oval face on a slender neck with a high, wide forehead is lined with long natural strands of hair that fall freely over the shoulders. A gentle smile, joyful eyes, a small narrow nose and a small chin remind us of the loveliness of Madonnas of the emerging beautiful style. Anna of Schweidnitz\u0027s life ended prematurely. She died a year after the birth of her son Wenceslas (born 26.2.1361), the long-awaited heir to the throne."

def votiveRec : Sculpture where
  name := "Votive relief from the Basilica of St. George"
  year := some "before 1228"
  location := some "Bohemia"
  artist := some "unknown"
  cast_information := some "patinated plaster"
  dimensions := some "middle part height 88cm, width 57 cm, wings h. 66 cm, width 27 cm"
  description := some "The relief consists of three parts, most likely secondarily connected into one whole. The area of the middle panel is filled with the most important figure of the Virgin Mary sitting on the throne. He is holding the baby Jesus on his lap, depicted in profile and with his blessing right hand raised. In both upper corners, angels with censers float on clouds. They place a crown on Mary\u0027s head, which is surrounded by a halo, just like in the case of angels. The engraved Latin inscription on the frame depicts the small figures kneeling under the steps of the throne at Mary\u0027s feet. On the left, Princess Mlada, sister of Prince Boleslav II, is depicted with folded hands. She was the abbess of the first female Benedictine monastery of St. Vitus. George at Prague Castle, which was founded by her brother in 973. On the opposite side, the praying abbess Berta is depicted. On the right wing, as is clear from the preserved inscription on the edge of the frame, kneels King Přemysl Otakar I, on the opposite wing there is a praying nun, probably Abbess Agnes, the king\u0027s half-sister."
  style := some "Oil on panel"
  original_information := some "gold marlstone, remnants of original polychrome"

def galleryInfoRec : GeneralInfo where
  title := "National Gallery Prague Cast Collection"
  description := "The National Gallery Prague owns a large collection of casts of medieval works. More than a dozen works have been selected from these, which clearly document the stylistic transformation of the sculptural form from the Romanesque period to the late Gothic. The selection clearly shows how the approach of sculptors to the depiction of religious images and everyday reality has changed over the centuries. The exhibited collection captures copies of stone sculptures and carvings. The originals of some of them have remained for centuries in the places for which they were created. This is the case, for example, with the portrait busts from Prague\u0027s St. Vitus Cathedral or the beautiful Pilsen Madonna. Others can be found today in the gallery exhibition."

def gothicInfoRec : GeneralInfo where
  title := "Gothic Sculpture"
  description := "The Gothic style has its roots in France and came to our country indirectly, especially through the Rhineland, in the middle of the 13th century. Medieval sculpture was closely linked to architecture in the early period. The statues were placed outside and inside. They often decorated portals and vestibules, in the interior they were on consoles, columns and pillars, and complemented the decoration of altars. Later, sculptures were increasingly used outside of architecture, which is related to the transformation of their format and the variety of materials used. In addition to stone sculptures, usually made of marl or sandstone, a number of wood carvings have been preserved. In the Czech lands, linden wood was most often used, rarely fruit trees and conifers. Wood carvings, as well as some stone sculptures, were usually provided with a colour treatment – polychromy."

/-- The full dataset document of data/sculptures.json. -/
def realData : SculptureData where
  general_information := { gallery_collection := galleryInfoRec, gothic_style := gothicInfoRec }
  sculptures := [tynRec, charlesRec, annaRec, votiveRec]
/-- Is a server-to-client message a `transcription` message? -/
def isTranscriptionMsg : WSMessage → Bool
  | WSMessage.transcriptionMsg _ _ => true
  | _ => false

/-- Modelled from the spec (claim C2's predicate): for each present criterion,
either the record lacks the corresponding optional field (the criterion is
skipped for that record) or the record's lower-cased field value contains the
lower-cased trimmed criterion value as a substring. -/
def claimCritFieldPasses (crit field : Option String) : Bool :=
  match crit with
  | none => true
  | some c =>
    if c == "" then true
    else
      match field with
      | none => true
      | some f => jsIncludes (jsToLowerCase f) (jsTrim (jsToLowerCase c))

/-- The record predicate claim C2 asserts `searchSculptures` filters by. -/
def claimSearchPasses (p : SearchParams) (s : Sculpture) : Bool :=
  critNamePasses p.name s.name
    && claimCritFieldPasses p.artist s.artist
    && claimCritFieldPasses p.location s.location
    && claimCritFieldPasses p.year s.year

/-- The amended optional-field check: a present non-empty criterion is also
skipped when the record's field is present but empty (both absent and empty
are falsy in JavaScript); otherwise the record's lower-cased field value must
contain the lower-cased trimmed criterion value. -/
def amendedCritFieldPasses (crit field : Option String) : Bool :=
  match crit with
  | none => true
  | some c =>
    if c == "" then true
    else
      match field with
      | none => true
      | some f =>
        if f == "" then true
        else jsIncludes (jsToLowerCase f) (jsTrim (jsToLowerCase c))

/-- The amended record predicate for C2. -/
def amendedSearchPasses (p : SearchParams) (s : Sculpture) : Bool :=
  critNamePasses p.name s.name
    && amendedCritFieldPasses p.artist s.artist
    && amendedCritFieldPasses p.location s.location
    && amendedCritFieldPasses p.year s.year

/-- Blank informational block for constructed test documents. -/
def blankInfo : GeneralInfo := { title := "", description := "" }

/-- Dataset exhibiting the C2 edge case: one record whose `artist` field is
present but the empty string. -/
def cx2Data : SculptureData :=
  { general_information := { gallery_collection := blankInfo, gothic_style := blankInfo }
    sculptures := [{ name := "Statue A", artist := some "" }] }

/-- Dataset exhibiting the C8 edge case: a two-record document containing an
empty-named record. -/
def cx8Data : SculptureData :=
  { general_information := { gallery_collection := blankInfo, gothic_style := blankInfo }
    sculptures := [{ name := "" }, { name := "ab" }] }

/-- Negated whitespace test; the characters a split token consists of. -/
def notWs (c : Char) : Bool := !wsChar c

/-- The tokens a whitespace split produces after its first separator run:
helper for stating the shape of `splitWsAux`. -/
def restTokens : List Char → List (List Char)
  | [] => []
  | _ :: cs => splitWsL (cs.dropWhile wsChar)

/-- Modelled from the spec (claims C5 and C10): "the message's lower-cased
whitespace-delimited tokens" — the non-empty segments of the whitespace
split of the lower-cased message. -/
def claimTokens (m : String) : List (List Char) :=
  (splitWsL (jsToLowerCase m).data).filter (fun t => t ≠ [])

/-- Modelled from the spec: the whitespace-delimited tokens rejoined by
single spaces. -/
def claimRejoined (m : String) : String :=
  ⟨jsJoinSp (claimTokens m)⟩

/-! Character-level facts about `Char.toLower`. -/

theorem char_toNat_ofNat_lt {n : Nat} (h : n < 55296) : (Char.ofNat n).toNat = n := by
  have hv : n.isValidChar := Or.inl h
  rw [Char.ofNat, dif_pos hv]
  rfl

theorem char_toLower_eq_self {c : Char} (h : ¬(c.toNat ≥ 65 ∧ c.toNat ≤ 90)) :
    c.toLower = c := by
  simp only [Char.toLower]
  exact if_neg h

theorem char_toLower_toNat_of_upper {c : Char} (h : c.toNat ≥ 65 ∧ c.toNat ≤ 90) :
    c.toLower.toNat = c.toNat + 32 := by
  simp only [Char.toLower]
  rw [if_pos h]
  exact char_toNat_ofNat_lt (by omega)

theorem char_toLower_toLower (c : Char) : c.toLower.toLower = c.toLower := by
  by_cases h : c.toNat ≥ 65 ∧ c.toNat ≤ 90
  · have h2 := char_toLower_toNat_of_upper h
    exact char_toLower_eq_self (by omega)
  · rw [char_toLower_eq_self h]
    exact char_toLower_eq_self h

theorem char_toLower_of_ws {c : Char} (h : wsChar c = true) : c.toLower = c := by
  have h4 : c = ' ' ∨ c = '\t' ∨ c = '\r' ∨ c = '\n' := by
    simpa [wsChar, Char.isWhitespace, Bool.or_eq_true, decide_eq_true_eq, or_assoc] using h
  rcases h4 with h1 | h1 | h1 | h1 <;> subst h1 <;> decide

/-! List-level helper lemmas about `dropWhile`, `rdropWhile` and `collapseWs`. -/

theorem of_dropWhile_eq_cons {α : Type} {p : α → Bool} {l : List α} {a : α} {as : List α}
    (h : l.dropWhile p = a :: as) : p a = false := by
  induction l with
  | nil => simp at h
  | cons c cs ih =>
    rw [List.dropWhile_cons] at h
    split at h
    · exact ih h
    · next hc =>
      cases h
      simpa using hc

theorem map_eq_self_of_fixed {α : Type} {f : α → α} :
    ∀ {l : List α}, (∀ a ∈ l, f a = a) → l.map f = l
  | [], _ => rfl
  | a :: as, h => by
    rw [List.map_cons, h a (List.mem_cons_self a as),
      map_eq_self_of_fixed (fun x hx => h x (List.mem_cons_of_mem a hx))]

theorem collapseWs_nil : collapseWs [] = [] := rfl

theorem collapseWs_cons_ws {cs : List Char} :
    ∀ {c : Char}, wsChar c = true →
      collapseWs (c :: cs) = ' ' :: collapseWs (cs.dropWhile wsChar) := by
  induction cs with
  | nil =>
    intro c h
    simp [collapseWs, h]
  | cons d cs' ih =>
    intro c h
    by_cases hd : wsChar d = true
    · show (if wsChar c then if wsChar d then collapseWs (d :: cs')
          else ' ' :: collapseWs (d :: cs') else c :: collapseWs (d :: cs'))
        = ' ' :: collapseWs ((d :: cs').dropWhile wsChar)
      rw [if_pos h, if_pos hd, List.dropWhile_cons_of_pos hd]
      exact ih hd
    · have hd' : wsChar d = false := by simpa using hd
      show (if wsChar c then if wsChar d then collapseWs (d :: cs')
          else ' ' :: collapseWs (d :: cs') else c :: collapseWs (d :: cs'))
        = ' ' :: collapseWs ((d :: cs').dropWhile wsChar)
      rw [if_pos h, if_neg (by simp [hd']), List.dropWhile_cons_of_neg (by simp [hd'])]

theorem collapseWs_cons_neg {c : Char} {cs : List Char} (h : wsChar c = false) :
    collapseWs (c :: cs) = c :: collapseWs cs := by
  cases cs with
  | nil => simp [collapseWs, h]
  | cons d cs' =>
    show (if wsChar c then if wsChar d then collapseWs (d :: cs')
        else ' ' :: collapseWs (d :: cs') else c :: collapseWs (d :: cs'))
      = c :: collapseWs (d :: cs')
    rw [if_neg (by simp [h])]

theorem dropWhile_collapseWs_lead (l : List Char) :
    (collapseWs (l.dropWhile wsChar)).dropWhile wsChar = collapseWs (l.dropWhile wsChar) := by
  cases h : l.dropWhile wsChar with
  | nil => rw [collapseWs_nil]; rfl
  | cons d ds =>
    have hd := of_dropWhile_eq_cons h
    rw [collapseWs_cons_neg hd, List.dropWhile_cons_of_neg (by simp [hd])]

theorem collapseWs_dropWhile (l : List Char) :
    collapseWs (l.dropWhile wsChar) = (collapseWs l).dropWhile wsChar := by
  cases l with
  | nil => simp [collapseWs_nil]
  | cons c cs =>
    by_cases hc : wsChar c = true
    · rw [List.dropWhile_cons_of_pos hc, collapseWs_cons_ws hc,
        List.dropWhile_cons_of_pos (show wsChar ' ' = true by decide)]
      exact (dropWhile_collapseWs_lead cs).symm
    · have hc' : wsChar c = false := by simpa using hc
      rw [List.dropWhile_cons_of_neg (by simp [hc']), collapseWs_cons_neg hc',
        List.dropWhile_cons_of_neg (by simp [hc'])]

theorem rdropWhile_ws_cons_neg {c : Char} {y : List Char} (hc : wsChar c = false) :
    List.rdropWhile wsChar (c :: y) = c :: List.rdropWhile wsChar y := by
  simp only [List.rdropWhile, List.reverse_cons]
  rw [List.dropWhile_append]
  split
  · next h =>
    have h0 : List.dropWhile wsChar y.reverse = [] := List.isEmpty_iff.mp h
    rw [h0, List.dropWhile_cons_of_neg (by simp [hc])]
    simp
  · next h =>
    rw [List.reverse_append]
    simp

theorem rdropWhile_ws_cons_pos {c : Char} {y : List Char} (hc : wsChar c = true) :
    List.rdropWhile wsChar (c :: y) =
      if List.rdropWhile wsChar y = [] then [] else c :: List.rdropWhile wsChar y := by
  simp only [List.rdropWhile, List.reverse_cons]
  rw [List.dropWhile_append]
  by_cases h : (List.dropWhile wsChar y.reverse).isEmpty = true
  · rw [if_pos h]
    have h0 : List.dropWhile wsChar y.reverse = [] := List.isEmpty_iff.mp h
    rw [h0, if_pos (by simp), List.dropWhile_cons_of_pos hc]
    rfl
  · rw [if_neg h]
    have h0 : List.dropWhile wsChar y.reverse ≠ [] := by simpa [List.isEmpty_iff] using h
    rw [if_neg (by simp [h0]), List.reverse_append]
    simp

theorem rdropWhile_ws_append_nonws {w y : List Char} (hw : ∀ c ∈ w, wsChar c = false) :
    List.rdropWhile wsChar (w ++ y) = w ++ List.rdropWhile wsChar y := by
  induction w with
  | nil => simp
  | cons c cs ih =>
    rw [List.cons_append, rdropWhile_ws_cons_neg (hw c (List.mem_cons_self c cs)),
      ih (fun x hx => hw x (List.mem_cons_of_mem c hx)), List.cons_append]

theorem rdropWhile_collapseWs_allws {b : List Char} (hb : ∀ c ∈ b, wsChar c = true) :
    List.rdropWhile wsChar (collapseWs b) = [] := by
  cases b with
  | nil => rw [collapseWs_nil]; simp [List.rdropWhile]
  | cons c cs =>
    rw [collapseWs_cons_ws (hb c (List.mem_cons_self c cs))]
    have h0 : cs.dropWhile wsChar = [] :=
      List.dropWhile_eq_nil_iff.mpr (fun x hx => hb x (List.mem_cons_of_mem c hx))
    rw [h0, collapseWs_nil, rdropWhile_ws_cons_pos (show wsChar ' ' = true by decide)]
    simp

theorem rdropWhile_collapseWs_append_allws {b : List Char} (hb : ∀ c ∈ b, wsChar c = true) :
    ∀ (n : Nat) (x : List Char), x.length ≤ n →
      List.rdropWhile wsChar (collapseWs (x ++ b)) = List.rdropWhile wsChar (collapseWs x) := by
  intro n
  induction n with
  | zero =>
    intro x hx
    have h0 : x = [] := List.eq_nil_of_length_eq_zero (Nat.le_zero.mp hx)
    subst h0
    rw [List.nil_append, rdropWhile_collapseWs_allws hb, collapseWs_nil]
    simp [List.rdropWhile]
  | succ n ih =>
    intro x hx
    match x with
    | [] =>
      rw [List.nil_append, rdropWhile_collapseWs_allws hb, collapseWs_nil]
      simp [List.rdropWhile]
    | c :: cs =>
      have hcs : cs.length ≤ n := by
        simpa [Nat.succ_le_succ_iff] using hx
      by_cases hc : wsChar c = true
      · rw [List.cons_append, collapseWs_cons_ws hc, collapseWs_cons_ws hc,
          List.dropWhile_append]
        by_cases h0 : (cs.dropWhile wsChar).isEmpty = true
        · rw [if_pos h0]
          have h1 : cs.dropWhile wsChar = [] := List.isEmpty_iff.mp h0
          have h2 : b.dropWhile wsChar = [] := List.dropWhile_eq_nil_iff.mpr hb
          rw [h2, h1]
        · rw [if_neg h0]
          rw [rdropWhile_ws_cons_pos (show wsChar ' ' = true by decide),
            rdropWhile_ws_cons_pos (show wsChar ' ' = true by decide)]
          have h2 : (cs.dropWhile wsChar).length ≤ n :=
            Nat.le_trans (List.Sublist.length_le (List.dropWhile_sublist wsChar)) hcs
          rw [ih (cs.dropWhile wsChar) h2]
      · have hc' : wsChar c = false := by simpa using hc
        rw [List.cons_append, collapseWs_cons_neg hc', collapseWs_cons_neg hc',
          rdropWhile_ws_cons_neg hc', rdropWhile_ws_cons_neg hc', ih cs hcs]

theorem jsTrimList_collapseWs (y : List Char) :
    jsTrimList (collapseWs y) = List.rdropWhile wsChar (collapseWs (y.dropWhile wsChar)) := by
  rw [jsTrimList, collapseWs_dropWhile]

theorem trimCollapse_ws_append {a x : List Char} (ha : ∀ c ∈ a, wsChar c = true) :
    jsTrimList (collapseWs (a ++ x)) = jsTrimList (collapseWs x) := by
  rw [jsTrimList_collapseWs, jsTrimList_collapseWs, List.dropWhile_append_of_pos ha]

theorem trimCollapse_append_ws {x b : List Char} (hb : ∀ c ∈ b, wsChar c = true) :
    jsTrimList (collapseWs (x ++ b)) = jsTrimList (collapseWs x) := by
  rw [jsTrimList_collapseWs, jsTrimList_collapseWs, List.dropWhile_append]
  by_cases h0 : (x.dropWhile wsChar).isEmpty = true
  · have h1 : x.dropWhile wsChar = [] := List.isEmpty_iff.mp h0
    rw [if_pos h0]
    have h2 : b.dropWhile wsChar = [] := List.dropWhile_eq_nil_iff.mpr hb
    rw [h1, h2]
  · rw [if_neg h0]
    exact rdropWhile_collapseWs_append_allws hb (x.dropWhile wsChar).length _ (Nat.le_refl _)

theorem mem_of_mem_jsTrimList {c : Char} {l : List Char} (h : c ∈ jsTrimList l) : c ∈ l := by
  rw [jsTrimList, List.rdropWhile, List.mem_reverse] at h
  have h1 := List.Sublist.mem h (List.dropWhile_sublist wsChar)
  rw [List.mem_reverse] at h1
  exact List.Sublist.mem h1 (List.dropWhile_sublist wsChar)

theorem data_jsToLowerCase (s : String) : (jsToLowerCase s).data = s.data.map Char.toLower :=
  rfl

theorem keepChar_of_ws {c : Char} (h : wsChar c = true) : keepChar c = true := by
  simp [keepChar, h]

/-- Normalization washes out a prior lower-casing and trim of its argument:
`normalizeName` of the `searchName` computed by `findSculptureByName` is the
normalized original query. -/
theorem normalizeName_jsTrim_jsToLowerCase (q : String) :
    normalizeName (jsTrim (jsToLowerCase q)) = normalizeName q := by
  have hfix : ∀ c ∈ (jsToLowerCase q).data, c.toLower = c := by
    intro c hc
    rw [data_jsToLowerCase] at hc
    obtain ⟨c0, _, rfl⟩ := List.mem_map.mp hc
    exact char_toLower_toLower c0
  show jsTrim ⟨collapseWs ((jsToLowerCase (jsTrim (jsToLowerCase q))).data.filter keepChar)⟩
      = jsTrim ⟨collapseWs ((jsToLowerCase q).data.filter keepChar)⟩
  have hlow : (jsToLowerCase (jsTrim (jsToLowerCase q))).data
      = jsTrimList (jsToLowerCase q).data := by
    rw [data_jsToLowerCase]
    show (jsTrimList (jsToLowerCase q).data).map Char.toLower = jsTrimList (jsToLowerCase q).data
    exact map_eq_self_of_fixed (fun a ha => hfix a (mem_of_mem_jsTrimList ha))
  rw [hlow]
  -- decompose the lower-cased data into leading whitespace, trimmed core,
  -- and trailing whitespace
  have hu : ∀ (u : List Char),
      jsTrimList (collapseWs ((jsTrimList u).filter keepChar))
        = jsTrimList (collapseWs (u.filter keepChar)) := by
    intro u
    have hsplit1 : u = u.takeWhile wsChar ++ u.dropWhile wsChar :=
      (List.takeWhile_append_dropWhile wsChar u).symm
    have hsplit2 : u.dropWhile wsChar
        = List.rdropWhile wsChar (u.dropWhile wsChar)
          ++ ((u.dropWhile wsChar).reverse.takeWhile wsChar).reverse := by
      conv_lhs => rw [← List.reverse_reverse (u.dropWhile wsChar)]
      conv_lhs =>
        rw [← List.takeWhile_append_dropWhile wsChar (u.dropWhile wsChar).reverse]
      rw [List.reverse_append]
      rfl
    have ha : ∀ c ∈ u.takeWhile wsChar, wsChar c = true :=
      fun c hc => List.mem_takeWhile_imp hc
    have htb : ∀ c ∈ ((u.dropWhile wsChar).reverse.takeWhile wsChar).reverse,
        wsChar c = true := by
      intro c hc
      rw [List.mem_reverse] at hc
      exact List.mem_takeWhile_imp hc
    have htrim : jsTrimList u = List.rdropWhile wsChar (u.dropWhile wsChar) := rfl
    conv_rhs => rw [hsplit1]
    conv_rhs => rw [hsplit2]
    rw [List.filter_append, List.filter_append,
      List.filter_eq_self.mpr (fun a hx => keepChar_of_ws (ha a hx)),
      List.filter_eq_self.mpr (fun a hx => keepChar_of_ws (htb a hx))]
    rw [trimCollapse_ws_append ha, trimCollapse_append_ws htb, htrim]
  rw [show jsTrim ⟨collapseWs ((jsTrimList (jsToLowerCase q).data).filter keepChar)⟩
      = ⟨jsTrimList (collapseWs ((jsTrimList (jsToLowerCase q).data).filter keepChar))⟩ from rfl,
    show jsTrim ⟨collapseWs ((jsToLowerCase q).data.filter keepChar)⟩
      = ⟨jsTrimList (collapseWs ((jsToLowerCase q).data.filter keepChar))⟩ from rfl,
    hu (jsToLowerCase q).data]

/-- C1: for every query string, `findSculptureByName` applies three tiers in
priority order and returns the first non-empty tier: (1) records whose
lower-cased name equals the lower-cased trimmed query; (2) records whose
normalized name equals the normalized query; (3) records whose lower-cased
name contains the query as a substring, ordered by descending name length. -/
theorem C1_findSculptureByName_tiers (d : SculptureData) (q : String) :
    (d.sculptures.filter (fun s => jsToLowerCase s.name == jsTrim (jsToLowerCase q)) ≠ [] →
      findSculptureByName (some d) q
        = d.sculptures.filter (fun s => jsToLowerCase s.name == jsTrim (jsToLowerCase q))) ∧
    (d.sculptures.filter (fun s => jsToLowerCase s.name == jsTrim (jsToLowerCase q)) = [] →
      d.sculptures.filter (fun s => normalizeName s.name == normalizeName q) ≠ [] →
      findSculptureByName (some d) q
        = d.sculptures.filter (fun s => normalizeName s.name == normalizeName q)) ∧
    (d.sculptures.filter (fun s => jsToLowerCase s.name == jsTrim (jsToLowerCase q)) = [] →
      d.sculptures.filter (fun s => normalizeName s.name == normalizeName q) = [] →
      (findSculptureByName (some d) q).Perm
          (d.sculptures.filter
            (fun s => jsIncludes (jsToLowerCase s.name) (jsTrim (jsToLowerCase q)))) ∧
        List.Sorted byDescNameLen (findSculptureByName (some d) q)) := by
  refine ⟨?_, ?_, ?_⟩
  · intro h1
    simp only [findSculptureByName]
    rw [if_pos (List.length_pos.mpr h1)]
  · intro h1 h2
    simp only [findSculptureByName]
    rw [normalizeName_jsTrim_jsToLowerCase q]
    rw [if_neg (by rw [h1]; simp), if_pos (List.length_pos.mpr h2)]
  · intro h1 h2
    simp only [findSculptureByName]
    rw [normalizeName_jsTrim_jsToLowerCase q]
    rw [if_neg (by rw [h1]; simp), if_neg (by rw [h2]; simp)]
    exact ⟨List.perm_insertionSort byDescNameLen _, List.sorted_insertionSort byDescNameLen _⟩

/-- Witness for C1: on the loaded dataset and the exact query
"Charles the fourth" the first tier is non-empty and is returned. -/
theorem C1_findSculptureByName_tiers_witness :
    findSculptureByName (some realData) "Charles the fourth"
      = realData.sculptures.filter
          (fun s => jsToLowerCase s.name == jsTrim (jsToLowerCase "Charles the fourth")) :=
  (C1_findSculptureByName_tiers realData "Charles the fourth").1 (by decide)

/-- C3: whenever all four criteria are absent or empty, `searchSculptures`
returns an empty sequence, for every store contents (loaded or not). -/
theorem C3_searchSculptures_all_empty (data : Option SculptureData) (p : SearchParams)
    (h1 : truthy p.name = false) (h2 : truthy p.artist = false)
    (h3 : truthy p.location = false) (h4 : truthy p.year = false) :
    searchSculptures data p = [] := by
  cases data with
  | none => rfl
  | some d =>
    simp only [searchSculptures]
    rw [if_pos (by rw [h1, h2, h3, h4]; rfl)]

/-- Witness for C3: the loaded dataset with all criteria absent or empty. -/
theorem C3_searchSculptures_all_empty_witness :
    searchSculptures (some realData) { name := some "", year := some "" } = [] :=
  C3_searchSculptures_all_empty (some realData)
    { name := some "", year := some "" } rfl rfl rfl rfl

/-- C6: when the dataset file is absent or fails to parse, the store's data is
null (`loadData` reports failure) and every accessor degrades to not-found
without throwing: `findSculptureByName` and `searchSculptures` return an empty
sequence, and `getSculptureByName`, `getGalleryInfo` and `getGothicStyleInfo`
return none. -/
theorem C6_load_failure_degrades :
    loadData none = (none, false) ∧
    (∀ q : String, findSculptureByName none q = []) ∧
    (∀ p : SearchParams, searchSculptures none p = []) ∧
    (∀ q : String, getSculptureByName none q = none) ∧
    getGalleryInfo none = none ∧
    getGothicStyleInfo none = none :=
  ⟨rfl, fun _ => rfl, fun _ => rfl, fun _ => rfl, rfl, rfl⟩

/-- C7: for every input-audio event, the handler first emits a
`speech_started` control message, then (after the upstream completion signal)
emits exactly one `transcription` message carrying the final transcribed text,
with the empty string when no transcription was produced. -/
theorem C7_handleInputAudio_sequence (event : RTInputAudioItemModel) :
    handleInputAudio event
        = [WSMessage.speechStarted,
            WSMessage.transcriptionMsg event.id (event.transcription.getD "")] ∧
    (handleInputAudio event).head? = some WSMessage.speechStarted ∧
    ((handleInputAudio event).filter isTranscriptionMsg).length = 1 ∧
    (event.transcription = none →
      handleInputAudio event
        = [WSMessage.speechStarted, WSMessage.transcriptionMsg event.id ""]) := by
  refine ⟨rfl, rfl, rfl, ?_⟩
  intro h
  rw [handleInputAudio, h]
  rfl

/-- Witness for C7 at a concrete completed audio item with no transcription. -/
theorem C7_handleInputAudio_sequence_witness :
    handleInputAudio { id := "item-1", transcription := none }
      = [WSMessage.speechStarted, WSMessage.transcriptionMsg "item-1" ""] :=
  (C7_handleInputAudio_sequence { id := "item-1", transcription := none }).2.2.2 rfl

theorem occursIn_nil (l : List Char) : occursIn [] l = true := by
  cases l with
  | nil => rfl
  | cons c t => rfl

theorem jsIncludes_empty (hay : String) : jsIncludes hay "" = true :=
  occursIn_nil hay.data

theorem jsTrim_jsToLowerCase_of_allws {q : String} (h : ∀ c ∈ q.data, wsChar c = true) :
    jsTrim (jsToLowerCase q) = "" := by
  show (⟨jsTrimList (jsToLowerCase q).data⟩ : String) = ""
  have hl : (jsToLowerCase q).data = q.data := by
    rw [data_jsToLowerCase]
    exact map_eq_self_of_fixed (fun a ha => char_toLower_of_ws (h a ha))
  rw [hl]
  show (⟨List.rdropWhile wsChar (q.data.dropWhile wsChar)⟩ : String) = ""
  rw [List.dropWhile_eq_nil_iff.mpr h]
  rfl

theorem allws_of_jsTrim_eq_empty {s : String} (h : jsTrim s = "") :
    ∀ c ∈ s.data, wsChar c = true := by
  intro c hc
  have hdata : jsTrimList s.data = [] := congrArg String.data h
  rw [jsTrimList] at hdata
  have h1 : ∀ x ∈ s.data.dropWhile wsChar, wsChar x = true :=
    List.rdropWhile_eq_nil_iff.mp hdata
  rw [← List.takeWhile_append_dropWhile wsChar s.data] at hc
  rcases List.mem_append.mp hc with h2 | h2
  · exact List.mem_takeWhile_imp h2
  · exact h1 c h2

theorem jsTrim_jsToLowerCase_of_trim_empty {s : String} (h : jsTrim s = "") :
    jsTrim (jsToLowerCase s) = "" :=
  jsTrim_jsToLowerCase_of_allws (allws_of_jsTrim_eq_empty h)

theorem critNamePasses_of_trim_empty {c : Option String}
    (h : c = none ∨ ∃ s, c = some s ∧ jsTrim s = "") (nm : String) :
    critNamePasses c nm = true := by
  rcases h with h | ⟨s, rfl, hs⟩
  · rw [h]; rfl
  · rw [critNamePasses]
    by_cases he : s == ""
    · rw [if_pos he]
    · rw [if_neg he, jsTrim_jsToLowerCase_of_trim_empty hs, jsIncludes_empty]

theorem critFieldPasses_of_trim_empty {c : Option String}
    (h : c = none ∨ ∃ s, c = some s ∧ jsTrim s = "") (f : Option String) :
    critFieldPasses c f = true := by
  rcases h with h | ⟨s, rfl, hs⟩
  · rw [h]
    cases f <;> rfl
  · cases f with
    | none => rfl
    | some v =>
      rw [critFieldPasses]
      by_cases he : (s == "" || v == "") = true
      · rw [if_pos he]
      · rw [if_neg he, jsTrim_jsToLowerCase_of_trim_empty hs, jsIncludes_empty]

/-- C9: a whitespace-only criterion value (for example a name equal to a single
space) is treated as present by the emptiness guard of `searchSculptures`, and
after trimming to the empty string it matches every record, so a query whose
criteria are each absent or trim-to-empty — at least one of them a non-empty
(whitespace-only) string — returns the entire loaded dataset rather than an
empty sequence. -/
theorem C9_whitespace_criteria_return_all (d : SculptureData) (p : SearchParams)
    (hn : p.name = none ∨ ∃ s, p.name = some s ∧ jsTrim s = "")
    (ha : p.artist = none ∨ ∃ s, p.artist = some s ∧ jsTrim s = "")
    (hl : p.location = none ∨ ∃ s, p.location = some s ∧ jsTrim s = "")
    (hy : p.year = none ∨ ∃ s, p.year = some s ∧ jsTrim s = "")
    (hone : truthy p.name = true ∨ truthy p.artist = true
      ∨ truthy p.location = true ∨ truthy p.year = true) :
    searchSculptures (some d) p = d.sculptures := by
  simp only [searchSculptures]
  rw [if_neg (by rcases hone with h | h | h | h <;> simp [h])]
  apply List.filter_eq_self.mpr
  intro s _
  rw [critNamePasses_of_trim_empty hn, critFieldPasses_of_trim_empty ha,
    critFieldPasses_of_trim_empty hl, critFieldPasses_of_trim_empty hy]
  rfl

/-- Witness for C9: a single-space name criterion on the loaded dataset
returns all four records. -/
theorem C9_whitespace_criteria_return_all_witness :
    searchSculptures (some realData) { name := some " " } = realData.sculptures :=
  C9_whitespace_criteria_return_all realData { name := some " " }
    (Or.inr ⟨" ", rfl, by decide⟩) (Or.inl rfl) (Or.inl rfl) (Or.inl rfl)
    (Or.inl (by decide))

/-- Counterexample to C2 as stated: with artist criterion "x" and a record
whose artist field is present but the empty string, the code keeps the record
(the falsy field makes the criterion be skipped) while the claim's predicate
rejects it (the record has the field, and "" does not contain "x"). -/
theorem C2_counterexample :
    searchSculptures (some cx2Data) { artist := some "x" }
      ≠ cx2Data.sculptures.filter (claimSearchPasses { artist := some "x" }) := by
  decide

theorem amendedCritFieldPasses_eq (crit field : Option String) :
    critFieldPasses crit field = amendedCritFieldPasses crit field := by
  cases crit with
  | none => cases field <;> rfl
  | some c =>
    cases field with
    | none =>
      show true = amendedCritFieldPasses (some c) none
      simp only [amendedCritFieldPasses]
      by_cases hc : (c == "") = true <;> simp [hc]
    | some f =>
      simp only [critFieldPasses, amendedCritFieldPasses]
      by_cases hc : (c == "") = true
      · rw [if_pos (by simp [hc]), if_pos hc]
      · by_cases hf : (f == "") = true
        · rw [if_pos (by simp [hf]), if_neg hc, if_pos hf]
        · rw [if_neg (by simp [hc, hf]), if_neg hc, if_neg hf]

/-- C2 (amended): for every criteria object with at least one present
non-empty criterion, `searchSculptures` returns exactly the records such
that, for each present non-empty criterion, either the record's corresponding
optional field is absent or the empty string (the criterion is skipped for
that record) or the record's lower-cased field value contains the lower-cased
trimmed criterion value as a substring. -/
theorem C2_amended_search_filters (d : SculptureData) (p : SearchParams)
    (hone : truthy p.name = true ∨ truthy p.artist = true
      ∨ truthy p.location = true ∨ truthy p.year = true) :
    searchSculptures (some d) p = d.sculptures.filter (amendedSearchPasses p) := by
  simp only [searchSculptures]
  rw [if_neg (by rcases hone with h | h | h | h <;> simp [h])]
  apply List.filter_congr
  intro s _
  rw [amendedSearchPasses, amendedCritFieldPasses_eq p.artist s.artist,
    amendedCritFieldPasses_eq p.location s.location,
    amendedCritFieldPasses_eq p.year s.year]

/-- Witness for the amended C2 at the constructed dataset. -/
theorem C2_amended_search_filters_witness :
    searchSculptures (some cx2Data) { artist := some "x" }
      = cx2Data.sculptures.filter (amendedSearchPasses { artist := some "x" }) :=
  C2_amended_search_filters cx2Data { artist := some "x" }
    (Or.inr (Or.inl (by decide)))

theorem normalizeName_empty : normalizeName "" = "" := rfl

theorem name_eq_empty_of_lower_beq {s : Sculpture}
    (h : (jsToLowerCase s.name == "") = true) : s.name = "" := by
  have h1 : jsToLowerCase s.name = "" := eq_of_beq h
  have h2 : s.name.data.map Char.toLower = [] := congrArg String.data h1
  exact String.ext (List.map_eq_nil_iff.mp h2)

/-- On an all-whitespace query over a dataset with no empty or
normalized-empty names, the first two tiers are empty and
`findSculptureByName` returns the whole list sorted by descending name
length. -/
theorem findSculptureByName_allws (d : SculptureData)
    (h1 : ∀ s ∈ d.sculptures, s.name ≠ "")
    (h2 : ∀ s ∈ d.sculptures, normalizeName s.name ≠ "")
    {q : String} (hq : ∀ c ∈ q.data, wsChar c = true) :
    findSculptureByName (some d) q = List.insertionSort byDescNameLen d.sculptures := by
  have hsn : jsTrim (jsToLowerCase q) = "" := jsTrim_jsToLowerCase_of_allws hq
  simp only [findSculptureByName]
  rw [hsn, normalizeName_empty]
  have ht1 : d.sculptures.filter (fun s => jsToLowerCase s.name == "") = [] := by
    apply List.filter_eq_nil_iff.mpr
    intro s hs hbeq
    exact h1 s hs (name_eq_empty_of_lower_beq hbeq)
  have ht2 : d.sculptures.filter (fun s => normalizeName s.name == "") = [] := by
    apply List.filter_eq_nil_iff.mpr
    intro s hs hbeq
    exact h2 s hs (eq_of_beq hbeq)
  rw [if_neg (by rw [ht1]; simp), if_neg (by rw [ht2]; simp)]
  congr 1
  apply List.filter_eq_self.mpr
  intro s _
  exact jsIncludes_empty (jsToLowerCase s.name)

/-- C8 (amended): for an empty or whitespace-only query on a loaded non-empty
dataset none of whose records has an empty name or a name that normalizes to
the empty string, the first two tiers are empty, so `findSculptureByName`
returns the entire sculpture list ordered by descending name length (the
empty trimmed query is a substring of every name), and `getSculptureByName`
of the empty string returns a record of maximal name length rather than
absent. -/
theorem C8_amended_empty_query (d : SculptureData) (hne : d.sculptures ≠ [])
    (h1 : ∀ s ∈ d.sculptures, s.name ≠ "")
    (h2 : ∀ s ∈ d.sculptures, normalizeName s.name ≠ "") :
    (∀ q : String, (∀ c ∈ q.data, wsChar c = true) →
      (findSculptureByName (some d) q).Perm d.sculptures ∧
        List.Sorted byDescNameLen (findSculptureByName (some d) q)) ∧
    ∃ s, getSculptureByName (some d) "" = some s ∧ s ∈ d.sculptures ∧
      ∀ t ∈ d.sculptures, t.name.length ≤ s.name.length := by
  constructor
  · intro q hq
    rw [findSculptureByName_allws d h1 h2 hq]
    exact ⟨List.perm_insertionSort byDescNameLen d.sculptures,
      List.sorted_insertionSort byDescNameLen d.sculptures⟩
  · have hq0 : ∀ c ∈ ("" : String).data, wsChar c = true :=
      fun c hc => absurd hc (List.not_mem_nil c)
    have hfind := findSculptureByName_allws d h1 h2 hq0
    have hperm := List.perm_insertionSort byDescNameLen d.sculptures
    have hsorted := List.sorted_insertionSort byDescNameLen d.sculptures
    cases hsort : List.insertionSort byDescNameLen d.sculptures with
    | nil =>
      rw [hsort] at hperm
      exact absurd hperm.nil_eq.symm hne
    | cons b rest =>
      refine ⟨b, ?_, ?_, ?_⟩
      · rw [getSculptureByName, hfind, hsort]
        rfl
      · rw [hsort] at hperm
        exact hperm.mem_iff.mp (List.mem_cons_self b rest)
      · intro t ht
        rw [hsort] at hperm
        rcases List.mem_cons.mp (hperm.mem_iff.mpr ht) with h | h
        · rw [h]
        · rw [hsort] at hsorted
          exact List.rel_of_sorted_cons hsorted t h

/-- Witness for the amended C8: on the loaded dataset (whose names are all
non-empty and normalize to non-empty strings) the whitespace-only query
returns a permutation of the whole list. -/
theorem C8_amended_empty_query_witness :
    (findSculptureByName (some realData) " ").Perm realData.sculptures :=
  ((C8_amended_empty_query realData (by decide) (by decide) (by decide)).1 " "
    (by decide)).1

/-- Counterexample to C8 as stated: on a loaded two-record dataset containing
an empty-named record, the empty query hits the exact-match tier, so
`findSculptureByName` returns only the empty-named record rather than the
entire list, and `getSculptureByName` of the empty string returns the
empty-named record, which is not of maximal name length. -/
theorem C8_counterexample :
    (findSculptureByName (some cx8Data) "").length ≠ cx8Data.sculptures.length ∧
    getSculptureByName (some cx8Data) "" = some { name := "" } ∧
    ∃ t ∈ cx8Data.sculptures, ({ name := "" } : Sculpture).name.length < t.name.length := by
  refine ⟨by decide, by decide, ⟨{ name := "ab" }, by decide, by decide⟩⟩

/-- Looking up a record's own name never comes back empty: the exact tier or,
failing that, the normalized tier (by `normalizeName_jsTrim_jsToLowerCase`)
contains the record itself. -/
theorem findSculptureByName_of_name_mem {d : SculptureData} {r : Sculpture}
    (hr : r ∈ d.sculptures) : findSculptureByName (some d) r.name ≠ [] := by
  simp only [findSculptureByName]
  by_cases ht1 : (d.sculptures.filter
      (fun s => jsToLowerCase s.name == jsTrim (jsToLowerCase r.name))).length > 0
  · rw [if_pos ht1]
    intro h
    rw [h] at ht1
    exact absurd ht1 (by simp)
  · rw [if_neg ht1]
    have hmem : r ∈ d.sculptures.filter
        (fun s => normalizeName s.name
          == normalizeName (jsTrim (jsToLowerCase r.name))) := by
      apply List.mem_filter.mpr
      refine ⟨hr, ?_⟩
      rw [normalizeName_jsTrim_jsToLowerCase r.name]
      exact beq_self_eq_true _
    rw [if_pos (List.length_pos.mpr (List.ne_nil_of_mem hmem))]
    exact List.ne_nil_of_mem hmem

theorem enrichWithSculptureData_of_name_match {d : SculptureData} {m : String}
    (hpn : potentialNamesFor (some d) m ≠ [])
    {sc : Sculpture}
    (hsc : getSculptureByName (some d)
        ((List.insertionSort byDescLen (potentialNamesFor (some d) m)).headD "")
      = some sc) :
    enrichWithSculptureData (some d) m = some (foundMessage sc) := by
  simp only [enrichWithSculptureData]
  rw [if_pos (List.length_pos.mpr hpn), hsc]

/-- C4: for every user message whose lower-cased text contains at least one
record's lower-cased name as a substring, enrichment picks a longest such
name, fetches its record via `getSculptureByName`, and produces the
fact-sheet block wrapped in the system-message instruction; in particular the
message "tell me about Charles the fourth" yields a block containing
"Name: Charles the fourth" and "Year: between 1375 - 1378". -/
theorem C4_enrichment_name_match :
    (∀ (d : SculptureData) (m : String),
      potentialNamesFor (some d) m ≠ [] →
      ∃ best sculpture,
        best ∈ potentialNamesFor (some d) m ∧
        (∀ n ∈ potentialNamesFor (some d) m, n.length ≤ best.length) ∧
        getSculptureByName (some d) best = some sculpture ∧
        enrichWithSculptureData (some d) m = some (foundMessage sculpture)) ∧
    ((enrichWithSculptureData (some realData)
        "tell me about Charles the fourth").isSome = true
      ∧ jsIncludes ((enrichWithSculptureData (some realData)
          "tell me about Charles the fourth").getD "") "Name: Charles the fourth" = true
      ∧ jsIncludes ((enrichWithSculptureData (some realData)
          "tell me about Charles the fourth").getD "") "Year: between 1375 - 1378" = true) := by
  constructor
  · intro d m hpn
    have hperm := List.perm_insertionSort byDescLen (potentialNamesFor (some d) m)
    have hsorted := List.sorted_insertionSort byDescLen (potentialNamesFor (some d) m)
    cases hsort : List.insertionSort byDescLen (potentialNamesFor (some d) m) with
    | nil =>
      rw [hsort] at hperm
      exact absurd hperm.nil_eq.symm hpn
    | cons b rest =>
      rw [hsort] at hperm hsorted
      have hb : b ∈ potentialNamesFor (some d) m :=
        hperm.mem_iff.mp (List.mem_cons_self b rest)
      obtain ⟨r, hr, hname⟩ : ∃ r ∈ d.sculptures, r.name = b := by
        have hmap := (List.mem_filter.mp hb).1
        exact List.mem_map.mp hmap
      have hfind : findSculptureByName (some d) b ≠ [] :=
        hname ▸ findSculptureByName_of_name_mem hr
      cases hhead : findSculptureByName (some d) b with
      | nil => exact absurd hhead hfind
      | cons sc tl =>
        have hget : getSculptureByName (some d) b = some sc := by
          rw [getSculptureByName, hhead]
          rfl
        refine ⟨b, sc, hb, ?_, hget, ?_⟩
        · intro n hn
          rcases List.mem_cons.mp (hperm.mem_iff.mpr hn) with h | h
          · rw [h]
          · exact List.rel_of_sorted_cons hsorted n h
        · apply enrichWithSculptureData_of_name_match hpn
          rw [hsort]
          exact hget
  · exact ⟨by decide, by decide, by decide⟩

/-- Witness for C4's general part at the concrete dataset and message. -/
theorem C4_enrichment_name_match_witness :
    ∃ best sculpture,
      best ∈ potentialNamesFor (some realData) "tell me about Charles the fourth" ∧
      (∀ n ∈ potentialNamesFor (some realData) "tell me about Charles the fourth",
        n.length ≤ best.length) ∧
      getSculptureByName (some realData) best = some sculpture ∧
      enrichWithSculptureData (some realData) "tell me about Charles the fourth"
        = some (foundMessage sculpture) :=
  C4_enrichment_name_match.1 realData "tell me about Charles the fourth" (by decide)

theorem splitWsAux_ne_nil : ∀ (l acc : List Char), splitWsAux l acc ≠ [] := by
  intro l
  induction l with
  | nil => intro acc; simp [splitWsAux]
  | cons a tail ih =>
    cases tail with
    | nil =>
      intro acc
      by_cases ha : wsChar a = true <;> simp [splitWsAux, ha]
    | cons d cs =>
      intro acc
      show (if wsChar a then
          if wsChar d then splitWsAux (d :: cs) acc
          else acc.reverse :: splitWsAux (d :: cs) []
        else splitWsAux (d :: cs) (a :: acc)) ≠ []
      by_cases ha : wsChar a = true
      · by_cases hd : wsChar d = true
        · rw [if_pos ha, if_pos hd]
          exact ih acc
        · rw [if_pos ha, if_neg hd]
          simp
      · rw [if_neg ha]
        exact ih (a :: acc)

theorem splitWsAux_shape : ∀ (l acc : List Char),
    splitWsAux l acc
      = (acc.reverse ++ l.takeWhile notWs) :: restTokens (l.dropWhile notWs) := by
  intro l
  induction l with
  | nil => intro acc; simp [splitWsAux, restTokens]
  | cons a tail ih =>
    cases tail with
    | nil =>
      intro acc
      by_cases ha : wsChar a = true
      · have ha' : notWs a = false := by simp [notWs, ha]
        show (if wsChar a then [acc.reverse, []] else [(a :: acc).reverse])
          = (acc.reverse ++ [a].takeWhile notWs) :: restTokens ([a].dropWhile notWs)
        rw [if_pos ha, List.takeWhile_cons_of_neg (by simp [ha']),
          List.dropWhile_cons_of_neg (by simp [ha'])]
        simp [restTokens, splitWsL, splitWsAux]
      · have ha' : notWs a = true := by simp [notWs, ha]
        show (if wsChar a then [acc.reverse, []] else [(a :: acc).reverse])
          = (acc.reverse ++ [a].takeWhile notWs) :: restTokens ([a].dropWhile notWs)
        rw [if_neg ha, List.takeWhile_cons_of_pos ha',
          List.dropWhile_cons_of_pos ha']
        simp [restTokens, splitWsL, splitWsAux]
    | cons d cs =>
      intro acc
      show (if wsChar a then
          if wsChar d then splitWsAux (d :: cs) acc
          else acc.reverse :: splitWsAux (d :: cs) []
        else splitWsAux (d :: cs) (a :: acc))
        = (acc.reverse ++ (a :: d :: cs).takeWhile notWs)
            :: restTokens ((a :: d :: cs).dropWhile notWs)
      by_cases ha : wsChar a = true
      · have ha' : notWs a = false := by simp [notWs, ha]
        rw [if_pos ha, List.takeWhile_cons_of_neg (by simp [ha']),
          List.dropWhile_cons_of_neg (by simp [ha']), List.append_nil]
        by_cases hd : wsChar d = true
        · have hd' : notWs d = false := by simp [notWs, hd]
          rw [if_pos hd, ih acc, List.takeWhile_cons_of_neg (by simp [hd']),
            List.dropWhile_cons_of_neg (by simp [hd']), List.append_nil]
          show (acc.reverse :: restTokens (d :: cs))
            = acc.reverse :: restTokens (a :: d :: cs)
          rw [restTokens, restTokens, List.dropWhile_cons_of_pos hd]
        · have hd' : notWs d = true := by simp [notWs, hd]
          rw [if_neg hd]
          show acc.reverse :: splitWsAux (d :: cs) []
            = acc.reverse :: restTokens (a :: d :: cs)
          rw [restTokens, List.dropWhile_cons_of_neg (by simpa using hd)]
          rfl
      · have ha' : notWs a = true := by simp [notWs, ha]
        rw [if_neg ha, ih (a :: acc), List.takeWhile_cons_of_pos ha',
          List.dropWhile_cons_of_pos ha']
        rw [List.reverse_cons, List.append_assoc]
        rfl

theorem jsTrimList_cons_ws {c : Char} {x : List Char} (h : wsChar c = true) :
    jsTrimList (c :: x) = jsTrimList x := by
  rw [jsTrimList, jsTrimList, List.dropWhile_cons_of_pos h]

theorem dropWhile_eq_self_of_nonws {x : List Char} (h : ∀ c ∈ x, wsChar c = false) :
    x.dropWhile wsChar = x := by
  cases x with
  | nil => rfl
  | cons c cs =>
    exact List.dropWhile_cons_of_neg (by simp [h c (List.mem_cons_self c cs)])

theorem jsTrimList_of_nonws {x : List Char} (h : ∀ c ∈ x, wsChar c = false) :
    jsTrimList x = x := by
  rw [jsTrimList, dropWhile_eq_self_of_nonws h]
  have := rdropWhile_ws_append_nonws h (y := [])
  rw [List.append_nil] at this
  rw [this]
  simp [List.rdropWhile]

theorem jsTrimList_nonws_append {w y : List Char} (hw : ∀ c ∈ w, wsChar c = false)
    (hne : w ≠ []) :
    jsTrimList (w ++ y) = w ++ List.rdropWhile wsChar y := by
  rw [jsTrimList]
  have h1 : (w ++ y).dropWhile wsChar = w ++ y := by
    cases w with
    | nil => exact absurd rfl hne
    | cons c cs =>
      rw [List.cons_append]
      exact List.dropWhile_cons_of_neg (by simp [hw c (List.mem_cons_self c cs)])
  rw [h1, rdropWhile_ws_append_nonws hw]

theorem jsJoinSp_cons_of_ne {t : List Char} {ts : List (List Char)} (h : ts ≠ []) :
    jsJoinSp (t :: ts) = t ++ ' ' :: jsJoinSp ts := by
  cases ts with
  | nil => exact absurd rfl h
  | cons u rest => rfl

theorem jsJoinSp_ne_nil {t : List Char} {rest : List (List Char)} (ht : t ≠ []) :
    jsJoinSp (t :: rest) ≠ [] := by
  cases rest with
  | nil =>
    show t ≠ []
    exact ht
  | cons u rest2 =>
    show t ++ ' ' :: jsJoinSp (u :: rest2) ≠ []
    cases t with
    | nil => exact absurd rfl ht
    | cons c cs => simp

theorem dropWhile_jsJoinSp_splitWsL (x : List Char) :
    (jsJoinSp (splitWsL (x.dropWhile wsChar))).dropWhile wsChar
      = jsJoinSp (splitWsL (x.dropWhile wsChar)) := by
  cases hx : x.dropWhile wsChar with
  | nil => rfl
  | cons a l2 =>
    have ha : wsChar a = false := of_dropWhile_eq_cons hx
    have ha' : notWs a = true := by simp [notWs, ha]
    rw [splitWsL, splitWsAux_shape, List.reverse_nil, List.nil_append,
      List.takeWhile_cons_of_pos ha']
    cases hrt : restTokens ((a :: l2).dropWhile notWs) with
    | nil =>
      show ((a :: List.takeWhile notWs l2)).dropWhile wsChar = _
      rw [List.dropWhile_cons_of_neg (by simp [ha])]
      rfl
    | cons t2 ts2 =>
      rw [jsJoinSp_cons_of_ne (by simp)]
      rw [List.cons_append]
      rw [List.dropWhile_cons_of_neg (by simp [ha])]

/-- Trimming the whitespace-rejoined split of a string equals rejoining only
its non-empty tokens: the boundary empty segments of a JavaScript
`split(/\s+/)` contribute exactly one leading and one trailing space, which
`trim` removes. -/
theorem jsTrimList_jsJoinSp_splitWsL :
    ∀ (n : Nat) (l : List Char), l.length ≤ n →
      jsTrimList (jsJoinSp (splitWsL l))
        = jsJoinSp ((splitWsL l).filter (fun t => t ≠ [])) := by
  intro n
  induction n with
  | zero =>
    intro l hl
    have h0 : l = [] := List.eq_nil_of_length_eq_zero (Nat.le_zero.mp hl)
    subst h0
    rfl
  | succ n ih =>
    intro l hl
    rw [splitWsL, splitWsAux_shape, List.reverse_nil, List.nil_append]
    have hw : ∀ c ∈ l.takeWhile notWs, wsChar c = false := by
      intro c hc
      have h1 := List.mem_takeWhile_imp hc
      simpa [notWs] using h1
    cases hr : l.dropWhile notWs with
    | nil =>
      rw [restTokens]
      by_cases hwnil : l.takeWhile notWs = []
      · rw [hwnil]
        rfl
      · rw [show jsJoinSp [l.takeWhile notWs] = l.takeWhile notWs from rfl,
          jsTrimList_of_nonws hw,
          List.filter_cons_of_pos (by simp [hwnil]), List.filter_nil]
        rfl
    | cons rc rcs =>
      rw [restTokens]
      have hts : splitWsL (rcs.dropWhile wsChar) ≠ [] := splitWsAux_ne_nil _ _
      rw [jsJoinSp_cons_of_ne hts]
      have hlen : (rcs.dropWhile wsChar).length ≤ n := by
        have h1 : (rc :: rcs).length ≤ l.length :=
          List.Sublist.length_le (hr ▸ List.dropWhile_sublist notWs)
        have h2 : (rcs.dropWhile wsChar).length ≤ rcs.length :=
          List.Sublist.length_le (List.dropWhile_sublist wsChar)
        simp only [List.length_cons] at h1
        omega
      have hIH := ih (rcs.dropWhile wsChar) hlen
      have hlead := dropWhile_jsJoinSp_splitWsL rcs
      have hrd : List.rdropWhile wsChar (jsJoinSp (splitWsL (rcs.dropWhile wsChar)))
          = jsJoinSp ((splitWsL (rcs.dropWhile wsChar)).filter (fun t => t ≠ [])) := by
        rw [← hIH, jsTrimList, hlead]
      by_cases hwnil : l.takeWhile notWs = []
      · rw [hwnil, List.nil_append,
          jsTrimList_cons_ws (show wsChar ' ' = true by decide),
          List.filter_cons_of_neg (by simp)]
        exact hIH
      · rw [jsTrimList_nonws_append hw hwnil,
          rdropWhile_ws_cons_pos (show wsChar ' ' = true by decide), hrd,
          List.filter_cons_of_pos (by simp [hwnil])]
        cases hft : (splitWsL (rcs.dropWhile wsChar)).filter (fun t => t ≠ []) with
        | nil =>
          have hj : jsJoinSp ([] : List (List Char)) = [] := rfl
          rw [if_pos hj, List.append_nil]
          rfl
        | cons ft fts =>
          have hftne : ft ≠ [] := by
            have hmem : ft ∈ (splitWsL (rcs.dropWhile wsChar)).filter
                (fun t => t ≠ []) := by
              rw [hft]
              exact List.mem_cons_self ft fts
            exact of_decide_eq_true (List.mem_filter.mp hmem).2
          rw [if_neg (jsJoinSp_ne_nil hftne),
            jsJoinSp_cons_of_ne (show (ft :: fts : List (List Char)) ≠ [] by simp)]

theorem splitWsAux_chars : ∀ (l : List Char), ∀ (acc t : List Char),
    t ∈ splitWsAux l acc → ∀ c ∈ t, c ∈ l ∨ c ∈ acc := by
  intro l
  induction l with
  | nil =>
    intro acc t ht c hc
    rw [show splitWsAux [] acc = [acc.reverse] from rfl] at ht
    rw [List.mem_singleton] at ht
    subst ht
    exact Or.inr (List.mem_reverse.mp hc)
  | cons a tail ih =>
    cases tail with
    | nil =>
      intro acc t ht c hc
      by_cases ha : wsChar a = true
      · rw [show splitWsAux [a] acc = if wsChar a then [acc.reverse, []]
            else [(a :: acc).reverse] from rfl, if_pos ha] at ht
        rcases List.mem_cons.mp ht with h | h
        · subst h
          exact Or.inr (List.mem_reverse.mp hc)
        · rw [List.mem_singleton] at h
          subst h
          exact absurd hc (List.not_mem_nil c)
      · rw [show splitWsAux [a] acc = if wsChar a then [acc.reverse, []]
            else [(a :: acc).reverse] from rfl, if_neg ha] at ht
        rw [List.mem_singleton] at ht
        subst ht
        rcases List.mem_cons.mp (List.mem_reverse.mp hc) with h | h
        · exact Or.inl (by rw [h]; exact List.mem_cons_self a [])
        · exact Or.inr h
    | cons d cs =>
      intro acc t ht c hc
      rw [show splitWsAux (a :: d :: cs) acc = if wsChar a then
          if wsChar d then splitWsAux (d :: cs) acc
          else acc.reverse :: splitWsAux (d :: cs) []
        else splitWsAux (d :: cs) (a :: acc) from rfl] at ht
      by_cases ha : wsChar a = true
      · rw [if_pos ha] at ht
        by_cases hd : wsChar d = true
        · rw [if_pos hd] at ht
          rcases ih acc t ht c hc with h | h
          · exact Or.inl (List.mem_cons_of_mem a h)
          · exact Or.inr h
        · rw [if_neg hd] at ht
          rcases List.mem_cons.mp ht with h | h
          · subst h
            exact Or.inr (List.mem_reverse.mp hc)
          · rcases ih [] t h c hc with h1 | h1
            · exact Or.inl (List.mem_cons_of_mem a h1)
            · exact absurd h1 (List.not_mem_nil c)
      · rw [if_neg ha] at ht
        rcases ih (a :: acc) t ht c hc with h | h
        · exact Or.inl (List.mem_cons_of_mem a h)
        · rcases List.mem_cons.mp h with h1 | h1
          · exact Or.inl (by rw [h1]; exact List.mem_cons_self a _)
          · exact Or.inr h1

theorem jsJoinSp_chars : ∀ (ts : List (List Char)) (c : Char), c ∈ jsJoinSp ts →
    (∃ t ∈ ts, c ∈ t) ∨ c = ' ' := by
  intro ts
  induction ts with
  | nil =>
    intro c hc
    exact absurd hc (List.not_mem_nil c)
  | cons t rest ih =>
    cases rest with
    | nil =>
      intro c hc
      exact Or.inl ⟨t, List.mem_cons_self t [], hc⟩
    | cons u rest2 =>
      intro c hc
      rw [show jsJoinSp (t :: u :: rest2) = t ++ ' ' :: jsJoinSp (u :: rest2) from rfl] at hc
      rcases List.mem_append.mp hc with h | h
      · exact Or.inl ⟨t, List.mem_cons_self t _, h⟩
      · rcases List.mem_cons.mp h with h1 | h1
        · exact Or.inr h1
        · rcases ih c h1 with ⟨t2, ht2, hct2⟩ | h2
          · exact Or.inl ⟨t2, List.mem_cons_of_mem t ht2, hct2⟩
          · exact Or.inr h2

theorem jsToLowerCase_fallbackJoined (m : String) :
    jsToLowerCase (fallbackJoined m) = fallbackJoined m := by
  apply String.ext
  rw [data_jsToLowerCase]
  apply map_eq_self_of_fixed
  intro c hc
  rcases jsJoinSp_chars _ c hc with ⟨t, ht, hct⟩ | h
  · rcases splitWsAux_chars _ [] t ht c hct with h1 | h1
    · rw [data_jsToLowerCase] at h1
      obtain ⟨c0, _, rfl⟩ := List.mem_map.mp h1
      exact char_toLower_toLower c0
    · exact absurd h1 (List.not_mem_nil c)
  · rw [h]
    decide

/-- The trimmed fallback search string is the spec's rejoined non-empty
tokens. -/
theorem jsTrim_fallbackJoined (m : String) :
    jsTrim (fallbackJoined m) = claimRejoined m := by
  apply String.ext
  show jsTrimList (jsJoinSp (splitWsL (jsToLowerCase m).data)) = _
  rw [jsTrimList_jsJoinSp_splitWsL ((jsToLowerCase m).data).length _ (Nat.le_refl _)]
  rfl

theorem name_includes_of_mem_search {d : SculptureData} {p : SearchParams}
    {s : Sculpture} {c : String} (hc : p.name = some c) (hne : c ≠ "")
    (hmem : s ∈ searchSculptures (some d) p) :
    jsIncludes (jsToLowerCase s.name) (jsTrim (jsToLowerCase c)) = true := by
  simp only [searchSculptures] at hmem
  split at hmem
  · exact absurd hmem (List.not_mem_nil s)
  · have hp := (List.mem_filter.mp hmem).2
    rw [hc] at hp
    simp only [Bool.and_eq_true] at hp
    have h1 : critNamePasses (some c) s.name = true := hp.1.1.1
    rw [critNamePasses, if_neg (by simp [hne])] at h1
    exact h1

/-- C10: since the name field is required on every record, a present non-empty
name criterion is never skipped: every record returned by `searchSculptures`
has a lower-cased name containing the lower-cased trimmed name criterion,
regardless of the other criteria; consequently the enrichment fallback search
matches a record only if the record's lower-cased name contains the entire
rejoined user message. -/
theorem C10_name_criterion_never_skipped :
    (∀ (d : SculptureData) (p : SearchParams) (s : Sculpture) (c : String),
      p.name = some c → c ≠ "" → s ∈ searchSculptures (some d) p →
      jsIncludes (jsToLowerCase s.name) (jsTrim (jsToLowerCase c)) = true) ∧
    (∀ (d : SculptureData) (m : String) (s : Sculpture),
      s ∈ fallbackResults (some d) m →
      jsIncludes (jsToLowerCase s.name) (claimRejoined m) = true) := by
  constructor
  · intro d p s c hc hne hmem
    exact name_includes_of_mem_search hc hne hmem
  · intro d m s hmem
    rw [fallbackResults] at hmem
    by_cases hj : fallbackJoined m = ""
    · simp only [searchSculptures] at hmem
      rw [if_pos (by simp [truthy, hj])] at hmem
      exact absurd hmem (List.not_mem_nil s)
    · have h1 : jsIncludes (jsToLowerCase s.name)
          (jsTrim (jsToLowerCase (fallbackJoined m))) = true :=
        name_includes_of_mem_search rfl hj hmem
      rw [jsToLowerCase_fallbackJoined, jsTrim_fallbackJoined] at h1
      exact h1

/-- Witness for C10: the record returned for the name criterion "the"
contains "the" in its lower-cased name. -/
theorem C10_name_criterion_never_skipped_witness :
    jsIncludes (jsToLowerCase charlesRec.name) (jsTrim (jsToLowerCase "the")) = true :=
  C10_name_criterion_never_skipped.1 realData { name := some "the" } charlesRec "the"
    rfl (by decide) (by decide)

/-- Counterexample to C5 as stated: for the whitespace-only user message " "
the spec's rejoined tokens give the empty string, whose four-criteria search
is empty, so the claim predicts no enrichment block; but the code's rejoined
string is " " (JavaScript `split(/\s+/)` keeps empty boundary segments), which
is truthy and trims to the empty string, so the fallback search matches every
record and an enrichment block IS produced. -/
theorem C5_counterexample :
    enrichWithSculptureData (some cx2Data) " " ≠ none ∧
    searchSculptures (some cx2Data)
      { name := some (claimRejoined " "), artist := some (claimRejoined " "),
        location := some (claimRejoined " "), year := some (claimRejoined " ") } = [] :=
  ⟨by decide, by decide⟩

/-- C5 (amended): for every user message in which no record name occurs,
enrichment issues exactly one multi-field search whose four criteria all
equal the lower-cased message split on whitespace runs and rejoined with
single spaces — keeping the empty boundary segments JavaScript `split`
produces, so a message consisting only of whitespace yields a whitespace
criterion rather than an empty one — and it returns the wrapped formatted
results when that search is non-empty and nothing when it is empty; in
particular "What is the weather today?" yields no enrichment block. -/
theorem C5_amended_fallback :
    (∀ (d : SculptureData) (m : String),
      potentialNamesFor (some d) m = [] →
      enrichWithSculptureData (some d) m
        = (if (fallbackResults (some d) m).length > 0
            then some (fallbackMessage (fallbackResults (some d) m)) else none)) ∧
    enrichWithSculptureData (some realData) "What is the weather today?" = none := by
  constructor
  · intro d m hpn
    simp only [enrichWithSculptureData]
    rw [if_neg (by rw [hpn]; simp)]
  · decide

/-- Witness for the amended C5 at the concrete no-hit message. -/
theorem C5_amended_fallback_witness :
    enrichWithSculptureData (some realData) "What is the weather today?"
      = (if (fallbackResults (some realData) "What is the weather today?").length > 0
          then some (fallbackMessage
            (fallbackResults (some realData) "What is the weather today?"))
          else none) :=
  C5_amended_fallback.1 realData "What is the weather today?" (by decide)
